import Mathlib

/-!
Verification of the RAG chatbot backend (data_processor.py, rag_pipeline.py)
via a shallow embedding in Lean 4.

Conventions of the embedding:
* A pandas cell is `Cell`: `null` stands for NaN/missing, `str` for a text
  cell, `num q` for a finite numeric value (rationals stand in for floats),
  and `inf`/`ninf` for the IEEE infinities produced by division by zero.
* A loaded data frame is `RawTable`: a list of column names and a list of
  rows; the pandas RangeIndex is the position of a row in the list.
* `clean_data` keeps the pandas index labels of surviving rows, so cleaned
  rows are pairs `(index, cells)`.
* Fallible Python code (KeyError on a missing column label) is embedded in
  `Except PyErr`.
-/

/-- Value stored in one cell of a data frame.  `null` models NaN/missing. -/
inductive Cell where
  | null : Cell
  | str (s : String) : Cell
  | num (q : ℚ) : Cell
  | inf : Cell
  | ninf : Cell
deriving DecidableEq, Repr

namespace Cell

/-- A cell counts as missing for `dropna` exactly when it is NaN/None. -/
def isNull : Cell → Bool
  | null => true
  | _ => false

end Cell

/-- Errors raised by the embedded Python code.  `keyError c` models a pandas
`KeyError` on column label `c`; `dataError` models the `DataError` the spec
speaks about (no such exception exists in the source). -/
inductive PyErr where
  | keyError (label : String) : PyErr
  | dataError (msg : String) : PyErr
deriving DecidableEq, Repr

/-- Recognize a `dataError` outcome of an embedded computation. -/
def isDataError {α : Type} : Except PyErr α → Bool
  | Except.error (PyErr.dataError _) => true
  | _ => false

/-! ### Decimal digits and number formatting (Python `str`/`format`) -/

/-- Little-endian base-10 digits of `n`; structural recursion on a fuel
argument so that the definition reduces by `rfl`/`decide`. -/
def natDigitsAux : Nat → Nat → List Nat
  | 0, n => [n]
  | fuel + 1, n => if n < 10 then [n] else n % 10 :: natDigitsAux fuel (n / 10)

/-- Little-endian base-10 digits of `n` (least significant first). -/
def natDigitsLE (n : Nat) : List Nat := natDigitsAux n n

/-- Value of a little-endian digit list. -/
def ofDigitsLE : List Nat → Nat
  | [] => 0
  | d :: ds => d + 10 * ofDigitsLE ds

theorem ofDigitsLE_natDigitsAux :
    ∀ (fuel n : Nat), n ≤ fuel → ofDigitsLE (natDigitsAux fuel n) = n := by
  intro fuel
  induction fuel with
  | zero =>
    intro n hn
    interval_cases n
    simp [natDigitsAux, ofDigitsLE]
  | succ f ih =>
    intro n hn
    by_cases h : n < 10
    · simp [natDigitsAux, h, ofDigitsLE]
    · have hdiv : n / 10 ≤ f := by
        have h10 : 10 ≤ n := Nat.le_of_not_lt h
        have : n / 10 < n := Nat.div_lt_self (by omega) (by omega)
        omega
      simp only [natDigitsAux, if_neg h, ofDigitsLE, ih _ hdiv]
      omega

theorem ofDigitsLE_natDigitsLE (n : Nat) : ofDigitsLE (natDigitsLE n) = n :=
  ofDigitsLE_natDigitsAux n n (Nat.le_refl n)

theorem natDigitsLE_inj : Function.Injective natDigitsLE :=
  Function.LeftInverse.injective ofDigitsLE_natDigitsLE

theorem natDigitsAux_lt_ten :
    ∀ (fuel n : Nat), n ≤ fuel → ∀ d ∈ natDigitsAux fuel n, d < 10 := by
  intro fuel
  induction fuel with
  | zero =>
    intro n hn
    interval_cases n
    simp [natDigitsAux]
  | succ f ih =>
    intro n hn d hd
    by_cases h : n < 10
    · simp [natDigitsAux, h] at hd
      omega
    · have hdiv : n / 10 ≤ f := by
        have : n / 10 < n := Nat.div_lt_self (by omega) (by omega)
        omega
      simp only [natDigitsAux, if_neg h, List.mem_cons] at hd
      rcases hd with rfl | hd
      · exact Nat.mod_lt _ (by omega)
      · exact ih _ hdiv d hd

theorem natDigitsLE_lt_ten (n : Nat) : ∀ d ∈ natDigitsLE n, d < 10 :=
  natDigitsAux_lt_ten n n (Nat.le_refl n)

/-- The character for one decimal digit. -/
def digitCh (d : Nat) : Char :=
  match d with
  | 0 => '0' | 1 => '1' | 2 => '2' | 3 => '3' | 4 => '4'
  | 5 => '5' | 6 => '6' | 7 => '7' | 8 => '8' | _ => '9'

theorem digitCh_inj_lt :
    ∀ a : Fin 10, ∀ b : Fin 10, digitCh a.1 = digitCh b.1 → a = b := by decide

/-- Decimal representation of a natural number, as Python `str` prints it. -/
def natToStr (n : Nat) : String :=
  String.mk ((natDigitsLE n).reverse.map digitCh)

theorem map_digitCh_inj :
    ∀ (l₁ l₂ : List Nat), (∀ d ∈ l₁, d < 10) → (∀ d ∈ l₂, d < 10) →
      l₁.map digitCh = l₂.map digitCh → l₁ = l₂ := by
  intro l₁
  induction l₁ with
  | nil =>
    intro l₂ _ _ h
    cases l₂ with
    | nil => rfl
    | cons b bs => simp at h
  | cons a as ih =>
    intro l₂ h₁ h₂ h
    cases l₂ with
    | nil => simp at h
    | cons b bs =>
      simp only [List.map_cons, List.cons.injEq] at h
      have ha : a < 10 := h₁ a (List.mem_cons_self a as)
      have hb : b < 10 := h₂ b (List.mem_cons_self b bs)
      have hab : a = b := by
        have := digitCh_inj_lt ⟨a, ha⟩ ⟨b, hb⟩ h.1
        exact congrArg Fin.val this
      refine List.cons_eq_cons.mpr ⟨hab, ih bs ?_ ?_ h.2⟩
      · intro d hd; exact h₁ d (List.mem_cons_of_mem a hd)
      · intro d hd; exact h₂ d (List.mem_cons_of_mem b hd)

theorem natToStr_inj : Function.Injective natToStr := by
  intro a b h
  have hdata : ((natDigitsLE a).reverse.map digitCh) =
      ((natDigitsLE b).reverse.map digitCh) := by
    have := congrArg String.data h
    simpa [natToStr] using this
  have hrev : (natDigitsLE a).reverse = (natDigitsLE b).reverse := by
    refine map_digitCh_inj _ _ ?_ ?_ hdata
    · intro d hd; exact natDigitsLE_lt_ten a d (List.mem_reverse.mp hd)
    · intro d hd; exact natDigitsLE_lt_ten b d (List.mem_reverse.mp hd)
  exact natDigitsLE_inj (List.reverse_injective hrev)

/-- Decimal representation of an integer. -/
def intToStr (i : Int) : String :=
  if i < 0 then "-" ++ natToStr i.natAbs else natToStr i.natAbs

/-! ### Fixed-point formatting (Python `:.2f` and `:,.2f`) -/

/-- Round to the nearest integer, ties to even (Python float formatting). -/
def roundHalfEven (x : ℚ) : ℤ :=
  let f := ⌊x⌋
  let r := x - (f : ℚ)
  if r < 1/2 then f
  else if 1/2 < r then f + 1
  else if f % 2 = 0 then f else f + 1

/-- Insert a comma after every three digits, working over the little-endian
character list; `k` counts digits emitted since the last comma. -/
def groupAux : List Char → Nat → List Char
  | [], _ => []
  | c :: cs, k => if k = 3 then ',' :: c :: groupAux cs 1 else c :: groupAux cs (k + 1)

/-- Thousands grouping of a digit string, as in Python's `,` format flag. -/
def groupDigits (s : String) : String :=
  String.mk ((groupAux s.data.reverse 0).reverse)

/-- Format a rational with exactly two decimal places, rounding half to even;
`comma` selects thousands grouping.  Embeds Python `:.2f` / `:,.2f`. -/
def formatFixed2 (comma : Bool) (q : ℚ) : String :=
  let m : Nat := (roundHalfEven (|q| * 100)).toNat
  let wholeRaw := natToStr (m / 100)
  let whole := if comma then groupDigits wholeRaw else wholeRaw
  let frac := (if m % 100 < 10 then "0" else "") ++ natToStr (m % 100)
  (if q < 0 then "-" else "") ++ whole ++ "." ++ frac

/-- Digits after the decimal point of `0 ≤ r < 1`, until the remainder is
zero or the fuel runs out. -/
def fracDigits : Nat → ℚ → List Char
  | 0, _ => []
  | fuel + 1, r =>
    if r = 0 then []
    else
      let d := (⌊r * 10⌋).toNat
      digitCh d :: fracDigits fuel (r * 10 - (⌊r * 10⌋ : ℚ))

/-- Decimal rendering of a rational, as Python `str` prints the value: an
integer prints without a decimal point (int64 cells), otherwise integer part,
point, fraction digits. -/
def formatPlainQ (q : ℚ) : String :=
  if q.den = 1 then intToStr q.num
  else
    (if q < 0 then "-" else "") ++ natToStr (⌊|q|⌋).toNat ++ "." ++
      String.mk (fracDigits 20 (|q| - (⌊|q|⌋ : ℚ)))

/-- Python `str` of a cell value (an f-string `{x}` slot).  NaN prints as
`nan`, the infinities as `inf`/`-inf`.  The `str` case can only be reached
for never-coerced text cells, where `str` is the identity. -/
def strOfCell : Cell → String
  | Cell.null => "nan"
  | Cell.str s => s
  | Cell.num q => formatPlainQ q
  | Cell.inf => "inf"
  | Cell.ninf => "-inf"

/-- Python `{x:.2f}` of a cell.  Only numeric (coerced) cells reach this in
the source; a text cell is rendered as itself for totality. -/
def fmtF2 : Cell → String
  | Cell.null => "nan"
  | Cell.str s => s
  | Cell.num q => formatFixed2 false q
  | Cell.inf => "inf"
  | Cell.ninf => "-inf"

/-- Python `{x:,.2f}` of a cell. -/
def fmtComma2 : Cell → String
  | Cell.null => "nan"
  | Cell.str s => s
  | Cell.num q => formatFixed2 true q
  | Cell.inf => "inf"
  | Cell.ninf => "-inf"

/-! ### Data frames (`DataProcessor`, data_processor.py) -/

/-- A loaded data frame: column names plus rows of cells.  The pandas
RangeIndex of a row is its position in `rows`. -/
structure RawTable where
  cols : List String
  rows : List (List Cell)
deriving DecidableEq, Repr

/-- Rectangularity of a frame, as pandas guarantees after `read_csv`. -/
def RawTable.WF (T : RawTable) : Prop :=
  ∀ r ∈ T.rows, r.length = T.cols.length

/-- Cleaned frame: rows keep their original pandas index labels, because
`dropna` preserves labels and `iterrows` later yields them as `idx`. -/
structure CleanTable where
  cols : List String
  rows : List (Nat × List Cell)
deriving DecidableEq, Repr

/-- Column-name standardization: `.str.strip().str.replace('﻿', '')`. -/
def colClean (c : String) : String :=
  (c.trim).replace "﻿" ""

/-- Position of a column label (pandas returns the first match). -/
def colIdx? (cols : List String) (name : String) : Option Nat :=
  match cols with
  | [] => none
  | c :: cs => if c = name then some 0 else (colIdx? cs name).map (· + 1)

/-- Numeric value of one decimal digit character. -/
def digitVal? (c : Char) : Option Nat :=
  if '0' ≤ c ∧ c ≤ '9' then some (c.toNat - 48) else none

/-- Accumulating decimal parser over a character list; any non-digit fails. -/
def parseDigitsAux : List Char → Nat → Option Nat
  | [], acc => some acc
  | c :: cs, acc =>
    match digitVal? c with
    | some d => parseDigitsAux cs (acc * 10 + d)
    | none => none

/-- Parse a decimal literal with optional sign and fractional part, the way
`pd.to_numeric` accepts plain int/float literals; anything else fails. -/
def parseNum (s : String) : Option ℚ :=
  let cs := s.trim.data
  let signed : ℚ × List Char :=
    match cs with
    | '-' :: rest => (-1, rest)
    | '+' :: rest => (1, rest)
    | _ => (1, cs)
  match (String.mk signed.2).splitOn "." with
  | [w] =>
    if w.data = [] then none
    else (parseDigitsAux w.data 0).map (fun n => signed.1 * n)
  | [w, f] =>
    if w.data = [] ∧ f.data = [] then none
    else
      match parseDigitsAux w.data 0, parseDigitsAux f.data 0 with
      | some wn, some fn =>
        some (signed.1 * ((wn : ℚ) + (fn : ℚ) / (10 : ℚ) ^ f.length))
      | _, _ => none
  | _ => none

/-- Embeds `pd.to_numeric(x, errors='coerce')` on one cell: numerics pass
through, strings parse or become NaN, NaN stays NaN. -/
def toNumeric : Cell → Cell
  | Cell.null => Cell.null
  | Cell.num q => Cell.num q
  | Cell.str s => (parseNum s).elim Cell.null Cell.num
  | Cell.inf => Cell.inf
  | Cell.ninf => Cell.ninf

/-- IEEE-style division of two cells (`Spend / Quantity` in pandas):
NaN propagates, division by zero yields a signed infinity (NaN for 0/0).
Text cells never reach this point (both columns are coerced first). -/
def fdiv : Cell → Cell → Cell
  | Cell.num a, Cell.num b =>
    if b = 0 then
      if a = 0 then Cell.null
      else if 0 < a then Cell.inf else Cell.ninf
    else Cell.num (a / b)
  | Cell.num _, Cell.inf => Cell.num 0
  | Cell.num _, Cell.ninf => Cell.num 0
  | Cell.inf, Cell.num b => if b < 0 then Cell.ninf else Cell.inf
  | Cell.ninf, Cell.num b => if b < 0 then Cell.inf else Cell.ninf
  | _, _ => Cell.null

/-- IEEE-style addition of two cells (for pandas `sum`); NaN operands are
already filtered out by `skipna`. -/
def fadd : Cell → Cell → Cell
  | Cell.num a, Cell.num b => Cell.num (a + b)
  | Cell.inf, Cell.ninf => Cell.null
  | Cell.ninf, Cell.inf => Cell.null
  | Cell.inf, _ => Cell.inf
  | _, Cell.inf => Cell.inf
  | Cell.ninf, _ => Cell.ninf
  | _, Cell.ninf => Cell.ninf
  | _, _ => Cell.null

/-- Embeds `df[name] = pd.to_numeric(df[name], ...)` guarded by
`if name in df.columns` (lines 48-51 of data_processor.py). -/
def coerceCol (name : String) (t : CleanTable) : CleanTable :=
  match colIdx? t.cols name with
  | none => t
  | some i =>
    ⟨t.cols, t.rows.map (fun p => (p.1, p.2.set i (toNumeric (p.2.getD i Cell.null))))⟩

/-- Column assignment `df[name] = f(row)`: overwrite the column when the
label exists, append a new column otherwise (pandas semantics). -/
def setCol (name : String) (f : List Cell → Cell) (t : CleanTable) : CleanTable :=
  match colIdx? t.cols name with
  | some i => ⟨t.cols, t.rows.map (fun p => (p.1, p.2.set i (f p.2)))⟩
  | none => ⟨t.cols ++ [name], t.rows.map (fun p => (p.1, p.2 ++ [f p.2]))⟩

/-- Embeds lines 54-55: `df['Price_per_KG'] = df['Spend (USD)'] / df['Quantity (KG)']`,
guarded by both columns being present. -/
def addPrice (t : CleanTable) : CleanTable :=
  match colIdx? t.cols "Spend (USD)", colIdx? t.cols "Quantity (KG)" with
  | some si, some qi =>
    setCol "Price_per_KG" (fun r => fdiv (r.getD si Cell.null) (r.getD qi Cell.null)) t
  | _, _ => t

/-- Embeds `DataProcessor.clean_data`: copy, `dropna()`, standardize column
names, coerce the two numeric columns, derive `Price_per_KG`. -/
def cleanData (T : RawTable) : CleanTable :=
  let kept := (T.rows.enum).filter (fun p => p.2.all (fun c => !c.isNull))
  addPrice (coerceCol "Spend (USD)" (coerceCol "Quantity (KG)"
    ⟨T.cols.map colClean, kept⟩))

/-- Label lookup `row[name]` on a pandas Series: `KeyError` when absent. -/
def rowGet (cols : List String) (r : List Cell) (name : String) : Except PyErr Cell :=
  match colIdx? cols name with
  | some i => Except.ok (r.getD i Cell.null)
  | none => Except.error (PyErr.keyError name)

/-- Python `float(x)` on a cell: numerics and NaN/inf pass through; a numeric
string converts (non-numeric strings would raise, modeled as NaN — the source
only applies `float` to already-coerced columns). -/
def floatCell : Cell → Cell
  | Cell.str s => (parseNum s).elim Cell.null Cell.num
  | c => c

/-- Chunk metadata dict (lines 101-108 of data_processor.py). -/
structure Metadata where
  commodity : Cell
  supplier : Cell
  quantity_kg : Cell
  spend_usd : Cell
  price_per_kg : Cell
  row_index : Nat
deriving DecidableEq, Repr

/-- One text chunk (lines 98-109 of data_processor.py). -/
structure Chunk where
  id : String
  text : String
  metadata : Metadata
deriving DecidableEq, Repr

/-- Build the chunk for one cleaned row, embedding the loop body of
`create_text_chunks`; the five label lookups happen in source order, so the
first missing label raises its `KeyError`. -/
def mkChunk (cols : List String) (p : Nat × List Cell) : Except PyErr Chunk := do
  let c ← rowGet cols p.2 "Commodity"
  let s ← rowGet cols p.2 "Top Supplier"
  let q ← rowGet cols p.2 "Quantity (KG)"
  let sp ← rowGet cols p.2 "Spend (USD)"
  let pr ← rowGet cols p.2 "Price_per_KG"
  let mainText :=
    "Commodity: " ++ strOfCell c ++ ". Top Supplier: " ++ strOfCell s ++
    ". Quantity Purchased: " ++ strOfCell q ++ " kilograms. Total Spend: $" ++
    fmtComma2 sp ++ " USD. Price per kilogram: $" ++ fmtF2 pr ++ "."
  let supplierText :=
    strOfCell s ++ " supplies " ++ strOfCell c ++ ", with " ++ strOfCell q ++
    " kg purchased for $" ++ fmtComma2 sp ++ "."
  let costText :=
    "The spend on " ++ strOfCell c ++ " is $" ++ fmtComma2 sp ++
    ", sourced from " ++ strOfCell s ++ " at $" ++ fmtF2 pr ++ " per kg."
  let combined := mainText ++ " " ++ supplierText ++ " " ++ costText
  pure
    { id := "row_" ++ natToStr p.1
      text := combined
      metadata :=
        { commodity := c
          supplier := s
          quantity_kg := floatCell q
          spend_usd := floatCell sp
          price_per_kg := floatCell pr
          row_index := p.1 } }

/-- The `for idx, row in df_clean.iterrows()` loop of `create_text_chunks`:
chunks are appended in row order; the first raised error aborts the call. -/
def mapChunks (cols : List String) : List (Nat × List Cell) → Except PyErr (List Chunk)
  | [] => Except.ok []
  | p :: ps => do
    let c ← mkChunk cols p
    let cs ← mapChunks cols ps
    pure (c :: cs)

/-- Embeds `DataProcessor.create_text_chunks`. -/
def createTextChunks (T : RawTable) : Except PyErr (List Chunk) :=
  let t := cleanData T
  mapChunks t.cols t.rows

/-- All cells of a named column of a cleaned frame (`df_clean[name]`). -/
def colCells (t : CleanTable) (name : String) : Except PyErr (List Cell) :=
  match colIdx? t.cols name with
  | some i => Except.ok (t.rows.map (fun p => p.2.getD i Cell.null))
  | none => Except.error (PyErr.keyError name)

/-- Pandas `Series.sum()` with default `skipna=True`. -/
def sumCells (cs : List Cell) : Cell :=
  (cs.filter (fun c => !c.isNull)).foldl fadd (Cell.num 0)

/-- Pandas `Series.mean()` with default `skipna=True` (NaN when empty). -/
def meanCells (cs : List Cell) : Cell :=
  let ks := cs.filter (fun c => !c.isNull)
  if ks.length = 0 then Cell.null
  else fdiv (ks.foldl fadd (Cell.num 0)) (Cell.num ks.length)

/-- Result dict of `get_summary_stats` (lines 119-126). -/
structure SummaryStats where
  total_commodities : Nat
  total_spend : Cell
  total_quantity : Cell
  avg_price_per_kg : Cell
  commodities : List Cell
  suppliers : List Cell
deriving DecidableEq, Repr

/-- Embeds `DataProcessor.get_summary_stats`. -/
def getSummaryStats (T : RawTable) : Except PyErr SummaryStats := do
  let t := cleanData T
  let spendCol ← colCells t "Spend (USD)"
  let qtyCol ← colCells t "Quantity (KG)"
  let priceCol ← colCells t "Price_per_KG"
  let commodityCol ← colCells t "Commodity"
  let supplierCol ← colCells t "Top Supplier"
  pure
    { total_commodities := t.rows.length
      total_spend := floatCell (sumCells spendCol)
      total_quantity := floatCell (sumCells qtyCol)
      avg_price_per_kg := floatCell (meanCells priceCol)
      commodities := commodityCol
      suppliers := supplierCol }

/-- Object state of a `DataProcessor`: the path and the loaded frame. -/
structure DataProcessor where
  csv_path : String
  df : RawTable
deriving DecidableEq, Repr

/-- Stateful view of `clean_data`: the method copies `self.df` (line 39) and
mutates only the copy, so the object state after the call is returned
alongside the result. -/
def DataProcessor.cleanDataS (p : DataProcessor) : CleanTable × DataProcessor :=
  (cleanData p.df, { csv_path := p.csv_path, df := p.df })

/-- Stateful view of `create_text_chunks`. -/
def DataProcessor.createTextChunksS (p : DataProcessor) :
    Except PyErr (List Chunk) × DataProcessor :=
  (createTextChunks p.df, { csv_path := p.csv_path, df := p.df })

/-- Stateful view of `get_summary_stats`. -/
def DataProcessor.getSummaryStatsS (p : DataProcessor) :
    Except PyErr SummaryStats × DataProcessor :=
  (getSummaryStats p.df, { csv_path := p.csv_path, df := p.df })

/-! ### RAG pipeline (rag_pipeline.py)

The embedding model, the ChromaDB vector store, and the Gemini LLM are
external collaborators; they are embedded through the interface contract of
spec section 6: the embedding provider is an arbitrary function from text to
a vector, the vector store keeps entries and answers nearest-neighbor
queries ranked by ascending cosine distance, and the generation provider
either returns text or fails. -/

/-- One persisted entry of the vector store. -/
structure IndexEntry where
  id : String
  emb : List ℚ
  doc : String
  meta : Metadata
deriving DecidableEq, Repr

/-- Dot product of two embedding vectors. -/
def dotProd (u v : List ℚ) : ℚ :=
  (List.zipWith (· * ·) u v).sum

/-- Cosine distance used by the store: `1 - cos` (unit vectors). -/
def cosDist (u v : List ℚ) : ℚ := 1 - dotProd u v

/-- The fixed `self.top_k = 30` configuration (line 54). -/
def topK : Nat := 30

/-- Embeds `RAGPipeline.embed_documents`: skip entirely when the collection
already holds documents, otherwise embed every chunk text and add one entry
per chunk. -/
def embedDocuments (embedF : String → List ℚ) (store : List IndexEntry)
    (chunks : List Chunk) : List IndexEntry :=
  if 0 < store.length then store
  else
    store ++ chunks.map (fun c =>
      { id := c.id, emb := embedF c.text, doc := c.text, meta := c.metadata })

/-- Ranking relation of the store for a query vector: ascending distance. -/
def byDist (qv : List ℚ) (a b : IndexEntry) : Prop :=
  cosDist qv a.emb ≤ cosDist qv b.emb

instance (qv : List ℚ) : DecidableRel (byDist qv) := fun a b =>
  decidable_of_iff (cosDist qv a.emb ≤ cosDist qv b.emb) Iff.rfl

instance (qv : List ℚ) : IsTotal IndexEntry (byDist qv) :=
  ⟨fun a b => le_total (cosDist qv a.emb) (cosDist qv b.emb)⟩

instance (qv : List ℚ) : IsTrans IndexEntry (byDist qv) :=
  ⟨fun _ _ _ h₁ h₂ => le_trans h₁ h₂⟩

/-- The ranked result list of `collection.query(..., n_results=top_k)`:
entries sorted by ascending cosine distance, truncated to `top_k` (the
store's contract, spec section 6). -/
def retrievalResults (embedF : String → List ℚ) (store : List IndexEntry)
    (query : String) : List IndexEntry :=
  (List.insertionSort (byDist (embedF query)) store).take topK

/-- Embeds `RAGPipeline.retrieve_relevant_chunks`: embed the query with the
same model, query the store, and return the documents and metadata lists
unchanged and in the store's ranked order. -/
def retrieveRelevantChunks (embedF : String → List ℚ) (store : List IndexEntry)
    (query : String) : List String × List Metadata :=
  ((retrievalResults embedF store query).map (fun e => e.doc),
   (retrievalResults embedF store query).map (fun e => e.meta))

/-- One conversation turn (a `{'role', 'content'}` dict). -/
structure Turn where
  role : String
  content : String
deriving DecidableEq, Repr

/-- Context section of the prompt (lines 154-157): the retrieved chunks
rendered as `Context i:` blocks joined by blank lines. -/
def contextSection (contexts : List String) : String :=
  String.intercalate "\n\n"
    (contexts.enum.map (fun p => "Context " ++ natToStr (p.1 + 1) ++ ":\n" ++ p.2))

/-- History section of the prompt (lines 160-165): empty for an empty or
absent history, otherwise a header plus `role: content` lines for the last
three turns and a trailing blank line. -/
def historySection (history : List Turn) : String :=
  if history.length = 0 then ""
  else
    "Previous conversation:\n" ++
      String.join ((history.drop (history.length - 3)).map
        (fun m => m.role ++ ": " ++ m.content ++ "\n")) ++ "\n"

/-- The full prompt f-string of lines 168-184. -/
def buildPrompt (query : String) (contexts : List String)
    (history : List Turn) : String :=
  "You are an AI assistant analyzing sugar commodity spend data. Answer the user's question accurately using ONLY the provided context.\n\n" ++
  historySection history ++
  "\n\nCONTEXT INFORMATION:\n" ++
  contextSection contexts ++
  "\n\nUSER QUESTION: " ++ query ++
  "\n\nINSTRUCTIONS:\n1. Answer based ONLY on the provided context\n2. Be specific with numbers (quantities in kg, spend in USD, suppliers, commodities)\n3. Format numbers clearly (e.g., $1,234.56, 1,000 kg)\n4. If the context doesn't have the information, say so\n5. Be concise but complete\n\nANSWER:"

/-- Response dict of `generate_answer` (lines 201-215). -/
structure AnswerResult where
  answer : String
  sources : List Metadata
  relevant_context : List String
  num_sources : Nat
deriving DecidableEq, Repr

/-- Embeds `RAGPipeline.generate_answer`.  The generation provider either
returns the answer text or fails with an error message; the `except` block of
lines 208-215 turns any failure into a degraded, well-formed result. -/
def generateAnswer (provider : String → Except String String) (query : String)
    (contexts : List String) (metadatas : List Metadata)
    (history : List Turn) : AnswerResult :=
  match provider (buildPrompt query contexts history) with
  | Except.ok t =>
    { answer := t
      sources := metadatas
      relevant_context := contexts
      num_sources := contexts.length }
  | Except.error e =>
    { answer := "Sorry, I encountered an error: " ++ e
      sources := []
      relevant_context := []
      num_sources := 0 }

/-! ### Substring containment (for scenario claims on chunk text) -/

/-- Does the character list `hay` start with `needle`? -/
def startsWithL : List Char → List Char → Bool
  | [], _ => true
  | _ :: _, [] => false
  | c :: cs, h :: hs => c = h && startsWithL cs hs

/-- Does `needle` occur as a contiguous segment of `hay`? -/
def hasSeg (needle : List Char) : List Char → Bool
  | [] => needle.isEmpty
  | h :: hs => startsWithL needle (h :: hs) || hasSeg needle hs

/-- Substring containment on strings. -/
def strContainsSub (hay needle : String) : Bool :=
  hasSeg needle.data hay.data

/-! ### Helper lemmas: column lookup -/

theorem colIdx?_lt {cols : List String} {name : String} {i : Nat}
    (h : colIdx? cols name = some i) : i < cols.length := by
  induction cols generalizing i with
  | nil => simp [colIdx?] at h
  | cons c cs ih =>
    by_cases hc : c = name
    · simp only [colIdx?, if_pos hc, Option.some.injEq] at h
      subst h
      simp
    · simp only [colIdx?, if_neg hc, Option.map_eq_some'] at h
      obtain ⟨j, hj, rfl⟩ := h
      have := ih hj
      simp only [List.length_cons]
      omega

theorem colIdx?_getD {cols : List String} {name : String} {i : Nat}
    (h : colIdx? cols name = some i) : cols.getD i "" = name := by
  induction cols generalizing i with
  | nil => simp [colIdx?] at h
  | cons c cs ih =>
    by_cases hc : c = name
    · simp [colIdx?, hc] at h
      subst h
      simpa using hc
    · simp only [colIdx?, if_neg hc, Option.map_eq_some'] at h
      obtain ⟨j, hj, rfl⟩ := h
      simpa using ih hj

theorem colIdx?_eq_none_iff {cols : List String} {name : String} :
    colIdx? cols name = none ↔ name ∉ cols := by
  induction cols with
  | nil => simp [colIdx?]
  | cons c cs ih =>
    by_cases hc : c = name
    · simp [colIdx?, hc]
    · simp [colIdx?, hc, ih, Ne.symm hc]

theorem colIdx?_of_mem {cols : List String} {name : String} (h : name ∈ cols) :
    ∃ i, colIdx? cols name = some i := by
  cases hi : colIdx? cols name with
  | none => exact absurd (colIdx?_eq_none_iff.mp hi) (not_not.mpr h)
  | some i => exact ⟨i, rfl⟩

theorem colIdx?_append_left {cols l : List String} {name : String} {i : Nat}
    (h : colIdx? cols name = some i) : colIdx? (cols ++ l) name = some i := by
  induction cols generalizing i with
  | nil => simp [colIdx?] at h
  | cons c cs ih =>
    by_cases hc : c = name
    · simp only [colIdx?, if_pos hc, Option.some.injEq] at h
      subst h
      simp [colIdx?, hc]
    · simp only [colIdx?, if_neg hc, Option.map_eq_some'] at h
      obtain ⟨j, hj, rfl⟩ := h
      have hih := ih hj
      show colIdx? (c :: (cs ++ l)) name = some (j + 1)
      simp only [colIdx?, if_neg hc, hih, Option.map_some']

theorem colIdx?_append_new {cols : List String} {name : String}
    (h : name ∉ cols) : colIdx? (cols ++ [name]) name = some cols.length := by
  induction cols with
  | nil => simp [colIdx?]
  | cons c cs ih =>
    have hc : c ≠ name := fun hcn => h (hcn ▸ List.mem_cons_self c cs)
    have hcs : name ∉ cs := fun hm => h (List.mem_cons_of_mem c hm)
    simp [colIdx?, hc, ih hcs]

/-! ### Helper lemmas: getD over set and append -/

theorem getD_set_self {α : Type} {l : List α} {i : Nat} {a d : α}
    (h : i < l.length) : (l.set i a).getD i d = a := by
  rw [List.getD_eq_getElem?_getD, List.getElem?_set_eq_of_lt a h]
  rfl

theorem getD_set_ne {α : Type} {l : List α} {i j : Nat} {a d : α}
    (h : i ≠ j) : (l.set i a).getD j d = l.getD j d := by
  rw [List.getD_eq_getElem?_getD, List.getElem?_set_ne h, ← List.getD_eq_getElem?_getD]

/-! ### Helper lemmas: enumeration -/

theorem mem_enumFrom_fst_le {α : Type} {p : Nat × α} {n : Nat} {l : List α}
    (h : p ∈ List.enumFrom n l) : n ≤ p.1 := by
  obtain ⟨i, x⟩ := p
  exact (List.mem_enumFrom h).1

theorem pairwise_fst_lt_enumFrom {α : Type} :
    ∀ (l : List α) (n : Nat),
      List.Pairwise (fun a b => a.1 < b.1) (List.enumFrom n l) := by
  intro l
  induction l with
  | nil => intro n; simp
  | cons x xs ih =>
    intro n
    refine List.Pairwise.cons ?_ (ih (n + 1))
    intro y hy
    have := mem_enumFrom_fst_le hy
    simpa using by omega

theorem getD_of_mem_enum {α : Type} {i : Nat} {x : α} {l : List α} {d : α}
    (h : (i, x) ∈ l.enum) : l.getD i d = x := by
  have h' := @List.mem_enumFrom _ x i 0 l h
  obtain ⟨-, hlt, hx⟩ := h'
  rw [List.getD_eq_getElem?_getD, List.getElem?_eq_getElem (by omega)]
  simp at hx
  simp [hx]

theorem snd_mem_of_mem_enum {α : Type} {p : Nat × α} {l : List α}
    (h : p ∈ l.enum) : p.2 ∈ l := by
  obtain ⟨i, x⟩ := p
  obtain ⟨-, hlt, hx⟩ := @List.mem_enumFrom _ x i 0 l h
  simp only [Nat.sub_zero] at hx
  rw [show (⟨i, x⟩ : Nat × α).2 = x from rfl, hx]
  exact List.getElem_mem _

/-! ### Helper lemmas: the cleaning pipeline -/

theorem coerceCol_cols (name : String) (t : CleanTable) :
    (coerceCol name t).cols = t.cols := by
  unfold coerceCol
  cases colIdx? t.cols name <;> rfl

theorem mem_coerceCol {name : String} {t : CleanTable} {p : Nat × List Cell}
    (h : p ∈ (coerceCol name t).rows) :
    ∃ q ∈ t.rows, p.1 = q.1 ∧ p.2.length = q.2.length := by
  unfold coerceCol at h
  cases hi : colIdx? t.cols name with
  | none =>
    rw [hi] at h
    exact ⟨p, h, rfl, rfl⟩
  | some i =>
    rw [hi] at h
    simp only [List.mem_map] at h
    obtain ⟨q, hq, hpq⟩ := h
    exact ⟨q, hq, by rw [← hpq], by rw [← hpq]; simp⟩

theorem mem_setCol {name : String} {f : List Cell → Cell} {t : CleanTable}
    {p : Nat × List Cell} (h : p ∈ (setCol name f t).rows) :
    ∃ q ∈ t.rows, p.1 = q.1 := by
  unfold setCol at h
  cases hi : colIdx? t.cols name with
  | none =>
    rw [hi] at h
    simp only [List.mem_map] at h
    obtain ⟨q, hq, hpq⟩ := h
    exact ⟨q, hq, by rw [← hpq]⟩
  | some i =>
    rw [hi] at h
    simp only [List.mem_map] at h
    obtain ⟨q, hq, hpq⟩ := h
    exact ⟨q, hq, by rw [← hpq]⟩

theorem mem_addPrice {t : CleanTable} {p : Nat × List Cell}
    (h : p ∈ (addPrice t).rows) : ∃ q ∈ t.rows, p.1 = q.1 := by
  unfold addPrice at h
  cases hsi : colIdx? t.cols "Spend (USD)" with
  | none =>
    rw [hsi] at h
    exact ⟨p, h, rfl⟩
  | some si =>
    rw [hsi] at h
    cases hqi : colIdx? t.cols "Quantity (KG)" with
    | none =>
      rw [hqi] at h
      exact ⟨p, h, rfl⟩
    | some qi =>
      rw [hqi] at h
      exact mem_setCol h

/-- Every cleaned row descends from a surviving raw row with the same pandas
index label. -/
theorem mem_cleanData_orig {T : RawTable} {p : Nat × List Cell}
    (h : p ∈ (cleanData T).rows) :
    ∃ r₀, (p.1, r₀) ∈ (T.rows.enum).filter (fun p => p.2.all (fun c => !c.isNull)) := by
  unfold cleanData at h
  obtain ⟨q, hq, hpq⟩ := mem_addPrice h
  obtain ⟨q', hq', hqq', -⟩ := mem_coerceCol hq
  obtain ⟨q'', hq'', hq'q'', -⟩ := mem_coerceCol hq'
  refine ⟨q''.2, ?_⟩
  rw [hpq, hqq', hq'q'']
  simpa using hq''

theorem cleanData_cols (T : RawTable) :
    (cleanData T).cols = (addPrice (coerceCol "Spend (USD)" (coerceCol "Quantity (KG)"
      ⟨T.cols.map colClean, (T.rows.enum).filter (fun p => p.2.all (fun c => !c.isNull))⟩))).cols :=
  rfl

theorem rows_len_coerceCol {name : String} {t : CleanTable}
    (h : ∀ p ∈ t.rows, (p : Nat × List Cell).2.length = t.cols.length) :
    ∀ p ∈ (coerceCol name t).rows, (p : Nat × List Cell).2.length = (coerceCol name t).cols.length := by
  intro p hp
  rw [coerceCol_cols]
  unfold coerceCol at hp
  cases hi : colIdx? t.cols name with
  | none =>
    rw [hi] at hp
    exact h p hp
  | some i =>
    rw [hi] at hp
    simp only [List.mem_map] at hp
    obtain ⟨q, hq, hpq⟩ := hp
    rw [← hpq]
    simpa using h q hq

/-! ### Helper lemmas: chunk construction -/

instance {ε α : Type} [DecidableEq ε] [DecidableEq α] : DecidableEq (Except ε α) := fun a b =>
  match a, b with
  | Except.ok x, Except.ok y =>
    if h : x = y then Decidable.isTrue (by rw [h]) else Decidable.isFalse (by simp [h])
  | Except.error x, Except.error y =>
    if h : x = y then Decidable.isTrue (by rw [h]) else Decidable.isFalse (by simp [h])
  | Except.ok _, Except.error _ => Decidable.isFalse (by simp)
  | Except.error _, Except.ok _ => Decidable.isFalse (by simp)

theorem mkChunk_ok_spec {cols : List String} {p : Nat × List Cell} {c : Chunk}
    (h : mkChunk cols p = Except.ok c) :
    c.id = "row_" ++ natToStr p.1 ∧ c.metadata.row_index = p.1 ∧
    (∀ v, rowGet cols p.2 "Quantity (KG)" = Except.ok v → c.metadata.quantity_kg = floatCell v) ∧
    (∀ v, rowGet cols p.2 "Spend (USD)" = Except.ok v → c.metadata.spend_usd = floatCell v) ∧
    (∀ v, rowGet cols p.2 "Price_per_KG" = Except.ok v → c.metadata.price_per_kg = floatCell v) := by
  unfold mkChunk at h
  cases h₁ : rowGet cols p.2 "Commodity" <;> rw [h₁] at h
  case error e => simp [Bind.bind, Except.bind] at h
  case ok v₁ =>
  cases h₂ : rowGet cols p.2 "Top Supplier" <;> rw [h₂] at h
  case error e => simp [Bind.bind, Except.bind] at h
  case ok v₂ =>
  cases h₃ : rowGet cols p.2 "Quantity (KG)" <;> rw [h₃] at h
  case error e => simp [Bind.bind, Except.bind] at h
  case ok v₃ =>
  cases h₄ : rowGet cols p.2 "Spend (USD)" <;> rw [h₄] at h
  case error e => simp [Bind.bind, Except.bind] at h
  case ok v₄ =>
  cases h₅ : rowGet cols p.2 "Price_per_KG" <;> rw [h₅] at h
  case error e => simp [Bind.bind, Except.bind] at h
  case ok v₅ =>
  simp only [Bind.bind, Except.bind, pure, Except.pure, Except.ok.injEq] at h
  subst h
  refine ⟨rfl, rfl, ?_, ?_, ?_⟩
  · intro v hv
    cases hv
    rfl
  · intro v hv
    cases hv
    rfl
  · intro v hv
    cases hv
    rfl

theorem mapChunks_forall₂ {cols : List String} {rows : List (Nat × List Cell)}
    {cs : List Chunk} (h : mapChunks cols rows = Except.ok cs) :
    List.Forall₂ (fun p c => mkChunk cols p = Except.ok c) rows cs := by
  induction rows generalizing cs with
  | nil =>
    simp only [mapChunks, Except.ok.injEq] at h
    subst h
    exact List.Forall₂.nil
  | cons p ps ih =>
    unfold mapChunks at h
    cases h₁ : mkChunk cols p <;> rw [h₁] at h
    case error e => simp [Bind.bind, Except.bind] at h
    case ok c =>
    cases h₂ : mapChunks cols ps <;> rw [h₂] at h
    case error e => simp [Bind.bind, Except.bind] at h
    case ok cs' =>
    simp only [Bind.bind, Except.bind, pure, Except.pure, Except.ok.injEq] at h
    subst h
    exact List.Forall₂.cons h₁ (ih h₂)

theorem forall₂_map_eq {α β γ : Type} {l₁ : List α} {l₂ : List β}
    {g : β → γ} {f : α → γ}
    (h : List.Forall₂ (fun a b => g b = f a) l₁ l₂) : l₂.map g = l₁.map f := by
  induction h with
  | nil => rfl
  | cons hab _ ih => simp [ih, hab]

/-! ### Helper lemmas: prompt composition -/

theorem historySection_drop (hist : List Turn) :
    historySection hist = historySection (hist.drop (hist.length - 3)) := by
  by_cases h0 : hist.length = 0
  · rw [List.length_eq_zero.mp h0]
    rfl
  · have hlen : (hist.drop (hist.length - 3)).length = hist.length - (hist.length - 3) :=
      List.length_drop _ _
    unfold historySection
    rw [hlen]
    have h1 : hist.length - (hist.length - 3) ≠ 0 := by omega
    rw [if_neg h0, if_neg h1]
    have h2 : hist.length - (hist.length - 3) - 3 = 0 := by omega
    rw [h2, List.drop_zero]

/-! ### Claim theorems -/

/-- C2.  When the generation provider fails with any error, `generate_answer`
swallows the failure and returns a well-formed result: the answer text is the
non-empty failure explanation, and both the sources and relevant-context
lists are empty. -/
theorem generateAnswer_degrades_on_failure
    (provider : String → Except String String) (query : String)
    (contexts : List String) (metadatas : List Metadata) (history : List Turn)
    (e : String)
    (h : provider (buildPrompt query contexts history) = Except.error e) :
    (generateAnswer provider query contexts metadatas history).answer =
        "Sorry, I encountered an error: " ++ e ∧
    (generateAnswer provider query contexts metadatas history).answer ≠ "" ∧
    (generateAnswer provider query contexts metadatas history).sources = [] ∧
    (generateAnswer provider query contexts metadatas history).relevant_context = [] := by
  unfold generateAnswer
  rw [h]
  refine ⟨rfl, ?_, rfl, rfl⟩
  intro hemp
  have hlen := congrArg String.length hemp
  rw [String.length_append] at hlen
  have h31 : ("Sorry, I encountered an error: ").length = 31 := rfl
  have h0 : ("" : String).length = 0 := rfl
  rw [h31, h0] at hlen
  omega

/-- Witness for C2 at a concrete always-failing provider. -/
theorem generateAnswer_degrades_on_failure_witness :
    (generateAnswer (fun _ => Except.error "429 quota exceeded") "q" [] [] []).answer =
        "Sorry, I encountered an error: " ++ "429 quota exceeded" ∧
    (generateAnswer (fun _ => Except.error "429 quota exceeded") "q" [] [] []).answer ≠ "" ∧
    (generateAnswer (fun _ => Except.error "429 quota exceeded") "q" [] [] []).sources = [] ∧
    (generateAnswer (fun _ => Except.error "429 quota exceeded") "q" [] [] []).relevant_context = [] :=
  generateAnswer_degrades_on_failure (fun _ => Except.error "429 quota exceeded")
    "q" [] [] [] "429 quota exceeded" rfl

/-- C3.  `embed_documents` is idempotent once the store holds documents: a
call on a non-empty store returns it unchanged, and a second call after any
first call never changes the store's count. -/
theorem embedDocuments_idempotent (embedF : String → List ℚ)
    (store : List IndexEntry) (chunks : List Chunk) :
    (0 < store.length → embedDocuments embedF store chunks = store) ∧
    (embedDocuments embedF (embedDocuments embedF store chunks) chunks).length =
      (embedDocuments embedF store chunks).length := by
  constructor
  · intro h
    unfold embedDocuments
    rw [if_pos h]
  · by_cases h : 0 < store.length
    · unfold embedDocuments
      rw [if_pos h, if_pos h]
    · unfold embedDocuments
      rw [if_neg h]
      by_cases hc : 0 < (store ++ chunks.map (fun c =>
          { id := c.id, emb := embedF c.text, doc := c.text, meta := c.metadata : IndexEntry })).length
      · rw [if_pos hc]
      · rw [if_neg hc]
        simp only [List.length_append, List.length_map] at hc ⊢
        omega

/-- Witness for C3 at a one-entry store and a one-chunk build. -/
theorem embedDocuments_idempotent_witness :
    embedDocuments (fun _ => [1]) [⟨"row_0", [1], "doc",
        ⟨Cell.str "c", Cell.str "s", Cell.num 1, Cell.num 2, Cell.num 2, 0⟩⟩]
      [⟨"row_1", "text", ⟨Cell.str "c", Cell.str "s", Cell.num 1, Cell.num 2, Cell.num 2, 1⟩⟩] =
      [⟨"row_0", [1], "doc", ⟨Cell.str "c", Cell.str "s", Cell.num 1, Cell.num 2, Cell.num 2, 0⟩⟩] :=
  (embedDocuments_idempotent (fun _ => [1])
      [⟨"row_0", [1], "doc", ⟨Cell.str "c", Cell.str "s", Cell.num 1, Cell.num 2, Cell.num 2, 0⟩⟩]
      [⟨"row_1", "text", ⟨Cell.str "c", Cell.str "s", Cell.num 1, Cell.num 2, Cell.num 2, 1⟩⟩]).1
    (by decide)

/-- C7.  The prompt renders the conversation history from only the last
three turns (`history[-3:]`), so composing with any history equals composing
with just its last three turns; an empty history contributes an empty
history section (the block is omitted); with five turns only the last three
are rendered. -/
theorem prompt_uses_last_three_turns (q : String) (ctx : List String)
    (hist : List Turn) :
    buildPrompt q ctx hist = buildPrompt q ctx (hist.drop (hist.length - 3)) ∧
    historySection ([] : List Turn) = "" ∧
    (∀ t₁ t₂ t₃ t₄ t₅ : Turn,
      historySection [t₁, t₂, t₃, t₄, t₅] = historySection [t₃, t₄, t₅]) := by
  refine ⟨?_, rfl, ?_⟩
  · unfold buildPrompt
    rw [historySection_drop hist]
  · intro t₁ t₂ t₃ t₄ t₅
    exact historySection_drop [t₁, t₂, t₃, t₄, t₅]

/-- C10.  The `DataProcessor` methods never mutate the loaded frame
`self.df` (clean_data works on a copy), and repeated calls on the same
loaded data return identical results. -/
theorem dataProcessor_never_mutates (p : DataProcessor) :
    (DataProcessor.cleanDataS p).2 = p ∧
    (DataProcessor.createTextChunksS p).2 = p ∧
    (DataProcessor.getSummaryStatsS p).2 = p ∧
    (DataProcessor.createTextChunksS ((DataProcessor.cleanDataS p).2)).1 =
      (DataProcessor.createTextChunksS p).1 ∧
    (DataProcessor.cleanDataS ((DataProcessor.createTextChunksS p).2)).1 =
      (DataProcessor.cleanDataS p).1 ∧
    (DataProcessor.getSummaryStatsS ((DataProcessor.createTextChunksS p).2)).1 =
      (DataProcessor.getSummaryStatsS p).1 := by
  cases p
  exact ⟨rfl, rfl, rfl, rfl, rfl, rfl⟩

/-! ### Helper lemmas: row order and ids -/

theorem map_fst_coerceCol (name : String) (t : CleanTable) :
    (coerceCol name t).rows.map Prod.fst = t.rows.map Prod.fst := by
  unfold coerceCol
  cases colIdx? t.cols name with
  | none => rfl
  | some i =>
    rw [List.map_map]
    rfl

theorem map_fst_setCol (name : String) (f : List Cell → Cell) (t : CleanTable) :
    (setCol name f t).rows.map Prod.fst = t.rows.map Prod.fst := by
  unfold setCol
  cases colIdx? t.cols name with
  | none =>
    rw [List.map_map]
    rfl
  | some i =>
    rw [List.map_map]
    rfl

theorem map_fst_addPrice (t : CleanTable) :
    (addPrice t).rows.map Prod.fst = t.rows.map Prod.fst := by
  unfold addPrice
  cases colIdx? t.cols "Spend (USD)" with
  | none => rfl
  | some si =>
    cases colIdx? t.cols "Quantity (KG)" with
    | none => rfl
    | some qi => exact map_fst_setCol _ _ _

theorem cleanData_map_fst (T : RawTable) :
    (cleanData T).rows.map Prod.fst =
      ((T.rows.enum).filter (fun p => p.2.all (fun c => !c.isNull))).map Prod.fst := by
  unfold cleanData
  rw [map_fst_addPrice, map_fst_coerceCol, map_fst_coerceCol]

theorem cleanData_fst_pairwise (T : RawTable) :
    List.Pairwise (· < ·) ((cleanData T).rows.map Prod.fst) := by
  rw [cleanData_map_fst]
  refine List.pairwise_map.mpr ?_
  refine List.Pairwise.filter _ ?_
  exact pairwise_fst_lt_enumFrom T.rows 0

theorem rowId_inj : Function.Injective (fun n => "row_" ++ natToStr n) := by
  intro a b h
  have hd := congrArg String.data h
  rw [String.data_append, String.data_append] at hd
  exact natToStr_inj (String.ext (List.append_cancel_left hd))

theorem forall₂_mem_right {α β : Type} {R : α → β → Prop} {l₁ : List α}
    {l₂ : List β} (h : List.Forall₂ R l₁ l₂) {b : β} (hb : b ∈ l₂) :
    ∃ a ∈ l₁, R a b := by
  induction h with
  | nil => simp at hb
  | cons hab htl ih =>
    rcases List.mem_cons.mp hb with rfl | hb'
    · exact ⟨_, List.mem_cons_self _ _, hab⟩
    · obtain ⟨a, ha, hr⟩ := ih hb'
      exact ⟨a, List.mem_cons_of_mem _ ha, hr⟩

/-! ### Concrete tables for scenario and counterexample claims -/

/-- The spec's scenario row: Sugar from AcmeCo, 1000 kg for 500 USD. -/
def T9 : RawTable :=
  ⟨["Commodity", "Top Supplier", "Quantity (KG)", "Spend (USD)"],
   [[Cell.str "Sugar", Cell.str "AcmeCo", Cell.num 1000, Cell.num 500]]⟩

/-- The chunk `create_text_chunks` builds for `T9`. -/
def chunk9 : Chunk :=
  { id := "row_0"
    text := "Commodity: Sugar. Top Supplier: AcmeCo. Quantity Purchased: 1000 kilograms. Total Spend: $500.00 USD. Price per kilogram: $0.50. AcmeCo supplies Sugar, with 1000 kg purchased for $500.00. The spend on Sugar is $500.00, sourced from AcmeCo at $0.50 per kg."
    metadata :=
      { commodity := Cell.str "Sugar"
        supplier := Cell.str "AcmeCo"
        quantity_kg := Cell.num 1000
        spend_usd := Cell.num 500
        price_per_kg := Cell.num (1/2)
        row_index := 0 } }

/-- A single non-null row whose quantity is zero: it survives `clean_data`
because the code filters nothing after `dropna()`. -/
def Tzero : RawTable :=
  ⟨["Commodity", "Top Supplier", "Quantity (KG)", "Spend (USD)"],
   [[Cell.str "X", Cell.str "Y", Cell.num 0, Cell.num 5]]⟩

/-- The chunk `create_text_chunks` builds for `Tzero` (price is `5 / 0`,
the IEEE infinity). -/
def chunkZero : Chunk :=
  { id := "row_0"
    text := "Commodity: X. Top Supplier: Y. Quantity Purchased: 0 kilograms. Total Spend: $5.00 USD. Price per kilogram: $inf. Y supplies X, with 0 kg purchased for $5.00. The spend on X is $5.00, sourced from Y at $inf per kg."
    metadata :=
      { commodity := Cell.str "X"
        supplier := Cell.str "Y"
        quantity_kg := Cell.num 0
        spend_usd := Cell.num 5
        price_per_kg := Cell.inf
        row_index := 0 } }

/-- The invariant the spec asserts for every chunk that leaves the pipeline:
quantity is a positive numeric and spend a numeric. -/
def ChunkClean (c : Chunk) : Prop :=
  (∃ q : ℚ, c.metadata.quantity_kg = Cell.num q ∧ 0 < q) ∧
  (∃ s : ℚ, c.metadata.spend_usd = Cell.num s)

set_option maxRecDepth 100000 in
/-- C9.  Scenario: the single Sugar/AcmeCo row with quantity 1000 and spend
500 yields per-unit price 0.50, and the chunk text contains "Sugar",
"AcmeCo", "1000", the currency-formatted "$500.00" and "$0.50". -/
theorem scenario_sugar_row :
    createTextChunks T9 = Except.ok [chunk9] ∧
    chunk9.metadata.price_per_kg = Cell.num (1/2) ∧
    strContainsSub chunk9.text "Sugar" = true ∧
    strContainsSub chunk9.text "AcmeCo" = true ∧
    strContainsSub chunk9.text "1000" = true ∧
    strContainsSub chunk9.text "$500.00" = true ∧
    strContainsSub chunk9.text "$0.50" = true := by
  refine ⟨by with_unfolding_all decide, by with_unfolding_all decide,
    by with_unfolding_all decide, by with_unfolding_all decide,
    by with_unfolding_all decide, by with_unfolding_all decide,
    by with_unfolding_all decide⟩

set_option maxRecDepth 100000 in
/-- Counterexample to C1: the non-null row of `Tzero` has numeric quantity 0,
yet `create_text_chunks` emits a chunk for it, so a record with
quantity ≤ 0 does appear in the chunk output. -/
theorem clean_invariant_counterexample :
    createTextChunks Tzero = Except.ok [chunkZero] ∧ ¬ ChunkClean chunkZero := by
  refine ⟨by with_unfolding_all decide, ?_⟩
  rintro ⟨⟨q, hq, hqpos⟩, -⟩
  have h0 : Cell.num 0 = Cell.num q := hq
  have : (0 : ℚ) = q := by
    injection h0
  rw [← this] at hqpos
  exact lt_irrefl 0 hqpos

/-- C1 (amended).  What the cleaning step does guarantee: every emitted
chunk descends from a raw row none of whose cells was null (the `dropna()`
before numeric coercion).  Rows whose quantity or spend fails coercion, or
whose quantity is ≤ 0, are not dropped (see the counterexample). -/
theorem chunks_only_from_non_null_raw_rows (T : RawTable) (cs : List Chunk)
    (h : createTextChunks T = Except.ok cs) :
    ∀ c ∈ cs, (T.rows.getD c.metadata.row_index []).all (fun cell => !cell.isNull) = true := by
  intro c hc
  unfold createTextChunks at h
  have F := mapChunks_forall₂ h
  obtain ⟨p, hp, hmk⟩ := forall₂_mem_right F hc
  obtain ⟨-, hidx, -⟩ := mkChunk_ok_spec hmk
  obtain ⟨r₀, hr₀⟩ := mem_cleanData_orig hp
  have hmem := (List.mem_filter.mp hr₀).1
  have hpred := (List.mem_filter.mp hr₀).2
  rw [hidx]
  rw [getD_of_mem_enum hmem]
  simpa using hpred

set_option maxRecDepth 100000 in
/-- Witness for C1 (amended) at the concrete scenario table. -/
theorem chunks_only_from_non_null_raw_rows_witness :
    (T9.rows.getD chunk9.metadata.row_index []).all (fun cell => !cell.isNull) = true :=
  chunks_only_from_non_null_raw_rows T9 [chunk9] (by with_unfolding_all decide) chunk9 (by simp)

/-- C5.  `create_text_chunks` emits one chunk per cleaned row, in row order
(`Forall₂` pairs the i-th cleaned row with the i-th chunk); each id is the
fixed "row_" text followed by the decimal source-row index, and all ids are
distinct.  The function is pure, so its output is identical across repeated
builds on identical input. -/
theorem chunk_ids_stable (T : RawTable) (cs : List Chunk)
    (h : createTextChunks T = Except.ok cs) :
    cs.length = (cleanData T).rows.length ∧
    List.Forall₂ (fun (p : Nat × List Cell) (c : Chunk) =>
      c.id = "row_" ++ natToStr p.1 ∧ c.metadata.row_index = p.1)
      (cleanData T).rows cs ∧
    (cs.map (fun c => c.id)).Nodup := by
  unfold createTextChunks at h
  have F := mapChunks_forall₂ h
  refine ⟨F.length_eq.symm, ?_, ?_⟩
  · exact F.imp (fun a b hmk => ⟨(mkChunk_ok_spec hmk).1, (mkChunk_ok_spec hmk).2.1⟩)
  · have hmap : cs.map (fun c => c.id) =
        (cleanData T).rows.map (fun p => "row_" ++ natToStr p.1) :=
      forall₂_map_eq (F.imp (fun a b hmk => (mkChunk_ok_spec hmk).1))
    rw [hmap]
    have hmm : (cleanData T).rows.map (fun p => "row_" ++ natToStr p.1) =
        ((cleanData T).rows.map Prod.fst).map (fun n => "row_" ++ natToStr n) := by
      rw [List.map_map]
      rfl
    rw [hmm]
    refine List.Nodup.map rowId_inj ?_
    exact (cleanData_fst_pairwise T).imp (fun hab => Nat.ne_of_lt hab)

set_option maxRecDepth 100000 in
/-- Witness for C5 at the concrete scenario table. -/
theorem chunk_ids_stable_witness :
    ([chunk9].length = (cleanData T9).rows.length) ∧
    List.Forall₂ (fun (p : Nat × List Cell) (c : Chunk) =>
      c.id = "row_" ++ natToStr p.1 ∧ c.metadata.row_index = p.1)
      (cleanData T9).rows [chunk9] ∧
    (([chunk9] : List Chunk).map (fun c => c.id)).Nodup :=
  chunk_ids_stable T9 [chunk9] (by with_unfolding_all decide)

/-- C6.  `retrieve_relevant_chunks` embeds the query and returns the store's
ranked result lists unchanged: at most `top_k` results (`top_k = 30`), with
`min top_k count` of them (no filtering), distances non-decreasing and
cosine similarity (`1 - distance`) non-increasing across the sequence, and
the contexts and metadatas lists aligned entrywise with the same ranked
results. -/
theorem retrieval_ranked_topk (embedF : String → List ℚ)
    (store : List IndexEntry) (query : String) :
    (retrieveRelevantChunks embedF store query).1.length ≤ topK ∧
    topK = 30 ∧
    (retrievalResults embedF store query).length = min topK store.length ∧
    List.Sorted (· ≤ ·) ((retrievalResults embedF store query).map
      (fun e => cosDist (embedF query) e.emb)) ∧
    List.Sorted (· ≥ ·) ((retrievalResults embedF store query).map
      (fun e => 1 - cosDist (embedF query) e.emb)) ∧
    (retrieveRelevantChunks embedF store query).1 =
      (retrievalResults embedF store query).map (fun e => e.doc) ∧
    (retrieveRelevantChunks embedF store query).2 =
      (retrievalResults embedF store query).map (fun e => e.meta) := by
  have hsorted : List.Sorted (byDist (embedF query))
      (List.insertionSort (byDist (embedF query)) store) :=
    List.sorted_insertionSort _ _
  have htake : List.Sorted (byDist (embedF query))
      (retrievalResults embedF store query) :=
    List.Pairwise.sublist (List.take_sublist _ _) hsorted
  have hlen : (retrievalResults embedF store query).length = min topK store.length := by
    unfold retrievalResults
    rw [List.length_take, List.length_insertionSort]
  refine ⟨?_, rfl, hlen, ?_, ?_, rfl, rfl⟩
  · unfold retrieveRelevantChunks
    rw [List.length_map, hlen]
    exact min_le_left _ _
  · exact List.pairwise_map.mpr htake
  · refine List.pairwise_map.mpr ?_
    exact htake.imp (fun hab => sub_le_sub_left hab 1)

/-! ### C8: behavior on a missing required column -/

/-- The four columns every chunk needs (spec section 4.1). -/
def requiredCols : List String :=
  ["Commodity", "Top Supplier", "Quantity (KG)", "Spend (USD)"]

/-- A source table with the `Commodity` column entirely absent. -/
def Tmiss : RawTable :=
  ⟨["Top Supplier", "Quantity (KG)", "Spend (USD)"],
   [[Cell.str "Y", Cell.num 10, Cell.num 5]]⟩

theorem mem_of_colIdx?_some {cols : List String} {name : String} {i : Nat}
    (h : colIdx? cols name = some i) : name ∈ cols := by
  by_contra hn
  rw [colIdx?_eq_none_iff.mpr hn] at h
  exact Option.noConfusion h

theorem mkChunk_err_commodity {cols : List String} {p : Nat × List Cell} {e : PyErr}
    (h : rowGet cols p.2 "Commodity" = Except.error e) :
    mkChunk cols p = Except.error e := by
  unfold mkChunk
  rw [h]
  rfl

theorem mkChunk_err_supplier {cols : List String} {p : Nat × List Cell}
    {v : Cell} {e : PyErr}
    (h₁ : rowGet cols p.2 "Commodity" = Except.ok v)
    (h₂ : rowGet cols p.2 "Top Supplier" = Except.error e) :
    mkChunk cols p = Except.error e := by
  unfold mkChunk
  rw [h₁, h₂]
  rfl

theorem mkChunk_err_quantity {cols : List String} {p : Nat × List Cell}
    {v₁ v₂ : Cell} {e : PyErr}
    (h₁ : rowGet cols p.2 "Commodity" = Except.ok v₁)
    (h₂ : rowGet cols p.2 "Top Supplier" = Except.ok v₂)
    (h₃ : rowGet cols p.2 "Quantity (KG)" = Except.error e) :
    mkChunk cols p = Except.error e := by
  unfold mkChunk
  rw [h₁, h₂, h₃]
  rfl

theorem mkChunk_err_spend {cols : List String} {p : Nat × List Cell}
    {v₁ v₂ v₃ : Cell} {e : PyErr}
    (h₁ : rowGet cols p.2 "Commodity" = Except.ok v₁)
    (h₂ : rowGet cols p.2 "Top Supplier" = Except.ok v₂)
    (h₃ : rowGet cols p.2 "Quantity (KG)" = Except.ok v₃)
    (h₄ : rowGet cols p.2 "Spend (USD)" = Except.error e) :
    mkChunk cols p = Except.error e := by
  unfold mkChunk
  rw [h₁, h₂, h₃, h₄]
  rfl

theorem rowGet_ok_of_mem (r : List Cell) {cols : List String} {name : String}
    (h : name ∈ cols) : ∃ v, rowGet cols r name = Except.ok v := by
  obtain ⟨i, hi⟩ := colIdx?_of_mem h
  refine ⟨r.getD i Cell.null, ?_⟩
  unfold rowGet
  rw [hi]

theorem rowGet_err_of_not_mem {cols : List String} {r : List Cell} {name : String}
    (h : name ∉ cols) : rowGet cols r name = Except.error (PyErr.keyError name) := by
  unfold rowGet
  rw [colIdx?_eq_none_iff.mpr h]

theorem createTextChunks_cons_err {T : RawTable} {p : Nat × List Cell}
    {ps : List (Nat × List Cell)} {e : PyErr}
    (hrows : (cleanData T).rows = p :: ps)
    (herr : mkChunk (cleanData T).cols p = Except.error e) :
    createTextChunks T = Except.error e := by
  have h0 : createTextChunks T = mapChunks (cleanData T).cols (cleanData T).rows := rfl
  rw [h0, hrows]
  unfold mapChunks
  rw [herr]
  rfl

set_option maxRecDepth 100000 in
/-- Counterexample to C8: with `Commodity` absent and one surviving row,
`clean_data` succeeds and `create_text_chunks` raises a `KeyError`, not the
spec's `DataError` (no `DataError` exists anywhere in the source). -/
theorem missing_column_counterexample :
    createTextChunks Tmiss = Except.error (PyErr.keyError "Commodity") ∧
    isDataError (createTextChunks Tmiss) = false := by
  exact ⟨by with_unfolding_all decide, by with_unfolding_all decide⟩

/-- C8 (amended).  When a required column is entirely absent from the
cleaned table and at least one row survives, `clean_data` itself raises
nothing (it is total); the failure happens in `create_text_chunks`, which
raises a `KeyError` naming a missing required column — never a `DataError`. -/
theorem missing_required_column_keyerror (T : RawTable)
    (hmiss : ∃ name ∈ requiredCols, name ∉ (cleanData T).cols)
    (hrows : (cleanData T).rows ≠ []) :
    (∃ name ∈ requiredCols,
      createTextChunks T = Except.error (PyErr.keyError name)) ∧
    isDataError (createTextChunks T) = false := by
  obtain ⟨name, hnameReq, hnotin⟩ := hmiss
  cases hrowseq : (cleanData T).rows with
  | nil => exact absurd hrowseq hrows
  | cons p ps =>
  have main : ∃ name ∈ requiredCols,
      createTextChunks T = Except.error (PyErr.keyError name) := by
    by_cases hC : "Commodity" ∈ (cleanData T).cols
    · obtain ⟨v₁, hv₁⟩ := rowGet_ok_of_mem p.2 hC
      by_cases hS : "Top Supplier" ∈ (cleanData T).cols
      · obtain ⟨v₂, hv₂⟩ := rowGet_ok_of_mem p.2 hS
        by_cases hQ : "Quantity (KG)" ∈ (cleanData T).cols
        · obtain ⟨v₃, hv₃⟩ := rowGet_ok_of_mem p.2 hQ
          by_cases hSp : "Spend (USD)" ∈ (cleanData T).cols
          · exfalso
            simp only [requiredCols, List.mem_cons, List.mem_singleton] at hnameReq
            rcases hnameReq with rfl | rfl | rfl | (rfl | h)
            · exact hnotin hC
            · exact hnotin hS
            · exact hnotin hQ
            · exact hnotin hSp
            · simp at h
          · refine ⟨"Spend (USD)", by simp [requiredCols], ?_⟩
            exact createTextChunks_cons_err hrowseq
              (mkChunk_err_spend hv₁ hv₂ hv₃ (rowGet_err_of_not_mem hSp))
        · refine ⟨"Quantity (KG)", by simp [requiredCols], ?_⟩
          exact createTextChunks_cons_err hrowseq
            (mkChunk_err_quantity hv₁ hv₂ (rowGet_err_of_not_mem hQ))
      · refine ⟨"Top Supplier", by simp [requiredCols], ?_⟩
        exact createTextChunks_cons_err hrowseq
          (mkChunk_err_supplier hv₁ (rowGet_err_of_not_mem hS))
    · refine ⟨"Commodity", by simp [requiredCols], ?_⟩
      exact createTextChunks_cons_err hrowseq
        (mkChunk_err_commodity (rowGet_err_of_not_mem hC))
  refine ⟨main, ?_⟩
  obtain ⟨n, -, hn⟩ := main
  rw [hn]
  rfl

set_option maxRecDepth 100000 in
/-- Witness for C8 (amended) at the concrete `Tmiss` table. -/
theorem missing_required_column_keyerror_witness :
    (∃ name ∈ requiredCols,
      createTextChunks Tmiss = Except.error (PyErr.keyError name)) ∧
    isDataError (createTextChunks Tmiss) = false :=
  missing_required_column_keyerror Tmiss
    ⟨"Commodity", by simp [requiredCols], by with_unfolding_all decide⟩
    (by with_unfolding_all decide)

/-! ### C4: the derived price column -/

theorem string_ne_price_qty : ("Price_per_KG" : String) ≠ "Quantity (KG)" := by decide

theorem string_ne_price_spend : ("Price_per_KG" : String) ≠ "Spend (USD)" := by decide

/-- On a rectangular table, the `Price_per_KG` cell written by `addPrice` is
exactly the `fdiv` of the row's spend and quantity cells, whenever those two
look up as numerics. -/
theorem addPrice_spec (t : CleanTable)
    (hlen : ∀ r ∈ t.rows, (r : Nat × List Cell).2.length = t.cols.length) :
    ∀ p ∈ (addPrice t).rows, ∀ q s : ℚ,
      rowGet (addPrice t).cols p.2 "Quantity (KG)" = Except.ok (Cell.num q) →
      rowGet (addPrice t).cols p.2 "Spend (USD)" = Except.ok (Cell.num s) →
      rowGet (addPrice t).cols p.2 "Price_per_KG" =
        Except.ok (fdiv (Cell.num s) (Cell.num q)) := by
  intro p hp q s hq hs
  cases hsi : colIdx? t.cols "Spend (USD)" with
  | none =>
    have haddeq : addPrice t = t := by
      unfold addPrice
      rw [hsi]
    rw [haddeq] at hs
    rw [rowGet_err_of_not_mem (colIdx?_eq_none_iff.mp hsi)] at hs
    exact absurd hs (by simp)
  | some si =>
    cases hqi : colIdx? t.cols "Quantity (KG)" with
    | none =>
      have haddeq : addPrice t = t := by
        unfold addPrice
        rw [hsi, hqi]
      rw [haddeq] at hq
      rw [rowGet_err_of_not_mem (colIdx?_eq_none_iff.mp hqi)] at hq
      exact absurd hq (by simp)
    | some qi =>
      have haddeq : addPrice t =
          setCol "Price_per_KG"
            (fun r => fdiv (r.getD si Cell.null) (r.getD qi Cell.null)) t := by
        unfold addPrice
        rw [hsi, hqi]
      rw [haddeq] at hp hq hs ⊢
      have hqilt : qi < t.cols.length := colIdx?_lt hqi
      have hsilt : si < t.cols.length := colIdx?_lt hsi
      cases hpi : colIdx? t.cols "Price_per_KG" with
      | some pi =>
        have hseteq : setCol "Price_per_KG"
            (fun r => fdiv (r.getD si Cell.null) (r.getD qi Cell.null)) t =
            ⟨t.cols, t.rows.map (fun r =>
              (r.1, r.2.set pi (fdiv (r.2.getD si Cell.null) (r.2.getD qi Cell.null))))⟩ := by
          unfold setCol
          rw [hpi]
        rw [hseteq] at hp hq hs ⊢
        obtain ⟨r0, hr0, hpr0⟩ := List.mem_map.mp hp
        have hlen0 : r0.2.length = t.cols.length := hlen r0 hr0
        have hpq : pi ≠ qi := by
          intro hcontra
          have h1 := colIdx?_getD hpi
          have h2 := colIdx?_getD hqi
          rw [hcontra, h2] at h1
          exact string_ne_price_qty h1.symm
        have hps : pi ≠ si := by
          intro hcontra
          have h1 := colIdx?_getD hpi
          have h2 := colIdx?_getD hsi
          rw [hcontra, h2] at h1
          exact string_ne_price_spend h1.symm
        rw [← hpr0] at hq hs ⊢
        unfold rowGet at hq hs ⊢
        rw [hqi] at hq
        rw [hsi] at hs
        rw [hpi]
        simp only [Except.ok.injEq] at hq hs
        rw [getD_set_ne hpq] at hq
        rw [getD_set_ne hps] at hs
        have hpilt : pi < r0.2.length := hlen0 ▸ colIdx?_lt hpi
        show Except.ok ((r0.2.set pi
            (fdiv (r0.2.getD si Cell.null) (r0.2.getD qi Cell.null))).getD pi Cell.null) =
          Except.ok (fdiv (Cell.num s) (Cell.num q))
        rw [getD_set_self hpilt, hq, hs]
      | none =>
        have hseteq : setCol "Price_per_KG"
            (fun r => fdiv (r.getD si Cell.null) (r.getD qi Cell.null)) t =
            ⟨t.cols ++ ["Price_per_KG"], t.rows.map (fun r =>
              (r.1, r.2 ++ [fdiv (r.2.getD si Cell.null) (r.2.getD qi Cell.null)]))⟩ := by
          unfold setCol
          rw [hpi]
        rw [hseteq] at hp hq hs ⊢
        obtain ⟨r0, hr0, hpr0⟩ := List.mem_map.mp hp
        have hlen0 : r0.2.length = t.cols.length := hlen r0 hr0
        rw [← hpr0] at hq hs ⊢
        unfold rowGet at hq hs ⊢
        rw [colIdx?_append_left hqi] at hq
        rw [colIdx?_append_left hsi] at hs
        rw [colIdx?_append_new (colIdx?_eq_none_iff.mp hpi)]
        simp only [Except.ok.injEq] at hq hs
        rw [List.getD_append _ _ _ _ (hlen0 ▸ hqilt)] at hq
        rw [List.getD_append _ _ _ _ (hlen0 ▸ hsilt)] at hs
        show Except.ok ((r0.2 ++
            [fdiv (r0.2.getD si Cell.null) (r0.2.getD qi Cell.null)]).getD
              t.cols.length Cell.null) =
          Except.ok (fdiv (Cell.num s) (Cell.num q))
        rw [List.getD_append_right _ _ _ _ (le_of_eq hlen0)]
        rw [hq, hs, hlen0, Nat.sub_self]
        rfl

theorem rows_len_stage (T : RawTable) (hWF : T.WF) :
    ∀ r ∈ (coerceCol "Spend (USD)" (coerceCol "Quantity (KG)"
        (⟨T.cols.map colClean,
          (T.rows.enum).filter (fun p => p.2.all (fun c => !c.isNull))⟩ : CleanTable))).rows,
      (r : Nat × List Cell).2.length =
        (coerceCol "Spend (USD)" (coerceCol "Quantity (KG)"
          (⟨T.cols.map colClean,
            (T.rows.enum).filter (fun p => p.2.all (fun c => !c.isNull))⟩ : CleanTable))).cols.length := by
  apply rows_len_coerceCol
  apply rows_len_coerceCol
  intro r hr
  have hmem : r.2 ∈ T.rows := snd_mem_of_mem_enum (List.mem_filter.mp hr).1
  show r.2.length = (T.cols.map colClean).length
  rw [List.length_map]
  exact hWF r.2 hmem

/-- The relation the spec asserts between a chunk's metadata fields: price
is the exact quotient of numeric spend by numeric quantity. -/
def PriceMatches (c : Chunk) : Prop :=
  ∃ q s : ℚ, c.metadata.quantity_kg = Cell.num q ∧
    c.metadata.spend_usd = Cell.num s ∧
    c.metadata.price_per_kg = Cell.num (s / q)

set_option maxRecDepth 100000 in
/-- Counterexample to C4: the quantity-zero row of `Tzero` survives cleaning
with numeric quantity 0 and spend 5, but its derived price is the IEEE
infinity, which is no rational quotient at all. -/
theorem price_formula_counterexample :
    createTextChunks Tzero = Except.ok [chunkZero] ∧
    chunkZero.metadata.quantity_kg = Cell.num 0 ∧
    chunkZero.metadata.spend_usd = Cell.num 5 ∧
    chunkZero.metadata.price_per_kg = Cell.inf ∧
    ¬ PriceMatches chunkZero := by
  refine ⟨by with_unfolding_all decide, rfl, rfl, rfl, ?_⟩
  rintro ⟨q, s, -, -, hp⟩
  exact Cell.noConfusion (show Cell.inf = Cell.num (s / q) from hp)

/-- C4 (amended).  On a rectangular table, every cleaned row whose quantity
looks up as a nonzero numeric `q` and spend as a numeric `s` has
`Price_per_KG` exactly `s / q`, and the chunk built from that row carries
the same value in its `price_per_kg` metadata field. -/
theorem price_formula (T : RawTable) (hWF : T.WF)
    (p : Nat × List Cell) (hp : p ∈ (cleanData T).rows) (q s : ℚ)
    (hq : rowGet (cleanData T).cols p.2 "Quantity (KG)" = Except.ok (Cell.num q))
    (hs : rowGet (cleanData T).cols p.2 "Spend (USD)" = Except.ok (Cell.num s))
    (hqnz : q ≠ 0) :
    rowGet (cleanData T).cols p.2 "Price_per_KG" = Except.ok (Cell.num (s / q)) ∧
    ∀ c : Chunk, mkChunk (cleanData T).cols p = Except.ok c →
      c.metadata.price_per_kg = Cell.num (s / q) := by
  have hfd : fdiv (Cell.num s) (Cell.num q) = Cell.num (s / q) := by
    show (if q = 0 then if s = 0 then Cell.null else if 0 < s then Cell.inf else Cell.ninf
      else Cell.num (s / q)) = Cell.num (s / q)
    rw [if_neg hqnz]
  have hprice : rowGet (cleanData T).cols p.2 "Price_per_KG" =
      Except.ok (fdiv (Cell.num s) (Cell.num q)) :=
    addPrice_spec _ (rows_len_stage T hWF) p hp q s hq hs
  refine ⟨hfd ▸ hprice, ?_⟩
  intro c hc
  exact (mkChunk_ok_spec hc).2.2.2.2 (Cell.num (s / q)) (by rw [hprice, hfd])

set_option maxRecDepth 100000 in
/-- Witness for C4 (amended) at the concrete scenario table. -/
theorem price_formula_witness :
    rowGet (cleanData T9).cols
      ((0, [Cell.str "Sugar", Cell.str "AcmeCo", Cell.num 1000, Cell.num 500,
        Cell.num (500 / 1000)]) : Nat × List Cell).2 "Price_per_KG" =
      Except.ok (Cell.num ((500 : ℚ) / 1000)) ∧
    ∀ c : Chunk, mkChunk (cleanData T9).cols
      ((0, [Cell.str "Sugar", Cell.str "AcmeCo", Cell.num 1000, Cell.num 500,
        Cell.num (500 / 1000)]) : Nat × List Cell) = Except.ok c →
      c.metadata.price_per_kg = Cell.num ((500 : ℚ) / 1000) :=
  price_formula T9 (by unfold RawTable.WF; decide)
    ((0, [Cell.str "Sugar", Cell.str "AcmeCo", Cell.num 1000, Cell.num 500,
      Cell.num (500 / 1000)]) : Nat × List Cell)
    (by with_unfolding_all decide) 1000 500
    (by with_unfolding_all decide) (by with_unfolding_all decide)
    (by with_unfolding_all decide)
